import Mathlib

/-!
Shallow embedding of the time-index resolution, zone state machine, path
generation and camera kinematics of the music-rollercoaster web app
(`web/utils.js`, `web/main.js`, `web/config.js`, `audio.js`, `camera.js`,
`rollercoaster.js`).

JS numbers are modelled as rationals (`ℚ`); a field that may be `undefined`
or `NaN` is modelled as `Option ℚ` (`none` stands for "not a number", so a
JS comparison `x < y` involving such a value is `false`).  Geometry that
involves `Math.cos` / `Math.sin` / `Math.sqrt` lives in `ℝ`.
-/

/-- One parsed CSV row of the energy / zone data
(`loadData` in `web/utils.js` builds `{time, energy}` objects via
`parseFloat`; a missing or unparsable field is `NaN`, modelled as `none`).
`structureVal` models the `structure` field read by `createRollercoaster`
(absent on energy rows, hence usually `none`). -/
structure Sample where
  time : Option ℚ
  energy : Option ℚ
  structureVal : Option ℚ
deriving DecidableEq, Inhabited

/-- Array access `energyData[i]`; out of range gives an entry whose fields
are all `undefined` (all accesses proved below stay in range). -/
def sampleAt (d : List Sample) (i : ℕ) : Sample := d.getD i default

/-- JS `x < t` where `x` may be `undefined`/`NaN`: any comparison with NaN
is `false`. -/
def optLT (o : Option ℚ) (t : ℚ) : Bool :=
  match o with
  | some v => decide (v < t)
  | none => false

/-- JS `x > t` where `x` may be `undefined`/`NaN`. -/
def optGT (o : Option ℚ) (t : ℚ) : Bool :=
  match o with
  | some v => decide (t < v)
  | none => false

/-- JS `Math.abs(x - t)` where `x` may be `undefined`/`NaN` (then the
result is NaN, i.e. `none`). -/
def absDiffO (o : Option ℚ) (t : ℚ) : Option ℚ :=
  o.map fun v => |v - t|

/-- JS `a < b` where both sides may be NaN. -/
def optLTO (a b : Option ℚ) : Bool :=
  match a, b with
  | some x, some y => decide (x < y)
  | _, _ => false

/-- The `while (left <= right)` loop of `findClosestTimeIndex`
(`web/utils.js` lines 87-106) together with the code after the loop.
`left` starts at `0` and only grows, so it is a `ℕ`; `right` can reach
`-1`, so it is a `ℤ`.  `Math.floor((left + right) / 2)` is `ℕ` division
because inside the loop `0 ≤ left ≤ right`. -/
def findClosestTimeIndexAux (time : ℚ) (d : List Sample) (left : ℕ) (right : ℤ) : ℕ :=
  if (left : ℤ) ≤ right then
    if optLT (sampleAt d ((left + right.toNat) / 2)).time time then
      findClosestTimeIndexAux time d ((left + right.toNat) / 2 + 1) right
    else if optGT (sampleAt d ((left + right.toNat) / 2)).time time then
      findClosestTimeIndexAux time d left (((left + right.toNat) / 2 : ℕ) - 1)
    else (left + right.toNat) / 2
  else if right < 0 then 0
  else if d.length ≤ left then d.length - 1
  else if optLTO (absDiffO (sampleAt d right.toNat).time time)
      (absDiffO (sampleAt d left).time time) then right.toNat
  else left
termination_by (right + 1 - left).toNat
decreasing_by
  all_goals omega

/-- `findClosestTimeIndex` from `web/utils.js` (lines 82-107). -/
def findClosestTimeIndex (time : ℚ) (d : List Sample) : ℕ :=
  findClosestTimeIndexAux time d 0 ((d.length : ℤ) - 1)

/-- A small strictly time-ascending, fully valid series used to
instantiate theorems on concrete data. -/
def dC1w : List Sample :=
  [⟨some 0, some 0, none⟩, ⟨some 1, some 1, none⟩, ⟨some 2, some 2, none⟩]

/-- The times of `dC1w` as a function. -/
def tmC1w : ℕ → ℚ := fun i => (i : ℚ)

/-- A series with an invalid middle sample (`parseFloat` produced `NaN`
for both fields), flanked by valid samples at times 1 and 3. -/
def dC5 : List Sample :=
  [⟨some 1, some 1, none⟩, ⟨none, none, none⟩, ⟨some 3, some 1, none⟩]

/-- JS validity test `energyData[i] && typeof energyData[i].time === 'number'`
used by `findExactIndexFromTime`. -/
def validTimeAt (d : List Sample) (i : ℕ) : Bool := (sampleAt d i).time.isSome

/-- The forward rescue scan of `findExactIndexFromTime` (lines 137-143):
the first index in `[lo, hi]` whose sample has a numeric time. -/
def scanValidForward (d : List Sample) (lo hi : ℕ) : Option ℕ :=
  (List.range' lo (hi + 1 - lo)).find? fun i => validTimeAt d i

/-- The backward rescue scan (lines 146-153): the first index encountered
scanning downward from `hi` to `lo` whose sample has a numeric time. -/
def scanValidBackward (d : List Sample) (hi lo : ℕ) : Option ℕ :=
  (List.range' lo (hi + 1 - lo)).reverse.find? fun i => validTimeAt d i

/-- The `while (right - left > 1)` loop of `findExactIndexFromTime`
(lines 131-174).  Returns `none` when the JS code returns 0 from inside
the loop (no valid index found by either rescue scan), and the final
`(left, right)` bracket otherwise.  Both indices start at validated
positions and are only ever moved to validated positions. -/
def exactLoop (time : ℚ) (d : List Sample) (left right : ℕ) : Option (ℕ × ℕ) :=
  if 1 < right - left then
    if validTimeAt d ((left + right) / 2) = false then
      match h : scanValidForward d ((left + right) / 2) right with
      | some v => exactLoop time d v right
      | none =>
        match h2 : scanValidBackward d ((left + right) / 2 - 1) left with
        | some v => exactLoop time d left v
        | none => none
    else
      if optLT (sampleAt d ((left + right) / 2)).time time then
        exactLoop time d ((left + right) / 2) right
      else
        exactLoop time d left ((left + right) / 2)
  else some (left, right)
termination_by right - left
decreasing_by
  · have hm := List.mem_of_find?_eq_some h
    rw [List.mem_range'_1] at hm
    omega
  · have hm := List.mem_of_find?_eq_some h2
    rw [List.mem_reverse, List.mem_range'_1] at hm
    omega
  · omega
  · omega

/-- The numeric value of `energyData[i].time`; the default 0 is never
reached where this is used (both bracket indices are validated). -/
def timeValD (d : List Sample) (i : ℕ) : ℚ := ((sampleAt d i).time).getD 0

/-- `findExactIndexFromTime` from `web/utils.js` (lines 110-194).
The `typeof time !== 'number' || isNaN(time)` guard has no counterpart
(a `ℚ` is always a number), and the `try/catch` is dead in the model
because no modelled operation throws. -/
def findExactIndexFromTime (time : ℚ) (d : List Sample) : ℚ :=
  if d.length = 0 then 0
  else if validTimeAt d 0 = false ∨ validTimeAt d (d.length - 1) = false then 0
  else
    match exactLoop time d 0 (d.length - 1) with
    | none => 0
    | some (left, right) =>
      if |timeValD d left - time| < 1 / 1000 then (left : ℚ)
      else if |timeValD d right - time| < 1 / 1000 then (right : ℚ)
      else if timeValD d right - timeValD d left ≤ 0 then (left : ℚ)
      else (left : ℚ) + (time - timeValD d left) / (timeValD d right - timeValD d left)

/-- `findNormalizedPositionFromTime` from `web/utils.js` (lines 196-239).
As above, the NaN guard and the `try/catch` have no modelled counterpart. -/
def findNormalizedPositionFromTime (time : ℚ) (d : List Sample) : ℚ :=
  if d.length = 0 then 0
  else
    let exactIndex := findExactIndexFromTime time d
    if exactIndex ≤ 0 then 0
    else if (d.length : ℚ) - 1 ≤ exactIndex then 99 / 100
    else
      let idx := (⌊exactIndex⌋).toNat
      let nextIdx := min (idx + 1) (d.length - 1)
      let energyChangeRate :=
        match (sampleAt d nextIdx).energy, (sampleAt d idx).energy with
        | some a, some b => |a - b|
        | _, _ => 0
      let speedMultiplier := 3 / 2 + energyChangeRate * 5
      let basePosition := exactIndex / ((d.length : ℚ) - 1)
      min (99 / 100) (basePosition * speedMultiplier)

/-- Payload of the `zoneChange` custom event: the new zone's name and the
energy value that triggered the transition. -/
structure ZoneEvent where
  zone : String
  energy : ℚ
deriving DecidableEq

/-- The `name` fields of `zonePalettes` in `web/config.js`, in key order
0 to 4. -/
def zoneNames : List String := ["low", "medium", "high", "ethereal", "cosmic"]

/-- `zoneCount = Object.keys(zonePalettes).length` (`web/config.js`). -/
def zoneCount : ℕ := zoneNames.length

/-- `getZoneNameFromValue` from `web/config.js`: NaN or negative values
default to zone 0, a value that is a key of `zonePalettes` maps to its
name, anything larger wraps around modulo `zoneCount`.  Zone data is read
through `parseInt`, so a numeric value is an integer (`ℤ`). -/
def getZoneNameFromValue (zoneValue : ℤ) : String :=
  if zoneValue < 0 then zoneNames.getD 0 "low"
  else if zoneValue.toNat < zoneNames.length then zoneNames.getD zoneValue.toNat "low"
  else zoneNames.getD (zoneValue.toNat % zoneCount) "low"

/-- The candidate zone computed by `updateUIIndicators` (`web/main.js`
lines 445-474): the zone-data value when present and numeric, otherwise
the energy value partitioned into `zoneCount` equal-width bands
(`zoneIndex = min(floor(energy / (1/zoneCount)), zoneCount - 1)`). -/
def candidateZoneName (zoneValue : Option ℤ) (energy : ℚ) : String :=
  match zoneValue with
  | some v => getZoneNameFromValue v
  | none =>
      getZoneNameFromValue
        (min ⌊energy / ((1 : ℚ) / (zoneCount : ℚ))⌋ ((zoneCount : ℤ) - 1))

/-- One read of the zone state machine (`web/main.js` lines 484-495):
store the candidate and emit one event only when it differs from the
stored current zone. -/
def zoneStep (current : String) (zoneValue : Option ℤ) (energy : ℚ) :
    String × Option ZoneEvent :=
  let newZone := candidateZoneName zoneValue energy
  if newZone ≠ current then (newZone, some ⟨newZone, energy⟩)
  else (current, none)

/-- Fold the zone state machine over a sequence of resolved reads,
collecting the emitted events in order. -/
def runZoneMachine (current : String) : List (Option ℤ × ℚ) → String × List ZoneEvent
  | [] => (current, [])
  | (z, e) :: rest =>
      let s := zoneStep current z e
      let r := runZoneMachine s.1 rest
      (r.1, s.2.toList ++ r.2)

/-- `state.currentZone` initial value (`web/config.js`): the name of
zone 0. -/
def initialZone : String := "low"

/-- The DOM event type used by both dispatch sites
(`updateUIIndicators`, `web/main.js` line 488, and
`updatePositionFromTime`, `audio.js` line 202). -/
def dispatchedZoneEventType : String := "zoneChange"

/-- The DOM event type the environment handler is registered under
(`createEnvironmentElements`, `web/main.js` line 348). -/
def registeredZoneEventType : String := "zonechange"

/-- DOM custom-event delivery: a listener fires for a dispatched event iff
the two type strings are equal (DOM event types are case-sensitive). -/
def listenerReceives (dispatched registered : String) : Bool :=
  dispatched == registered

/-- A 3D point (`THREE.Vector3`) with real coordinates. -/
structure V3 where
  x : ℝ
  y : ℝ
  z : ℝ

/-- The energy field selected by `createRollercoaster` (`rollercoaster.js`
lines 27-40): `energy` when numeric on the first row, otherwise the first
numeric non-`time` key of that row (`structure` is the only other modelled
key), defaulting back to `energy` when none qualifies. -/
inductive EnergyField
  | energyF
  | structureF
deriving DecidableEq

/-- Field detection on the first row (lines 28-40). -/
def detectEnergyField (d : List Sample) : EnergyField :=
  match d with
  | [] => .energyF
  | s :: _ =>
      if s.energy.isSome then .energyF
      else if s.structureVal.isSome then .structureF
      else .energyF

/-- Read the selected energy field of a sample. -/
def fieldValue (f : EnergyField) (s : Sample) : Option ℚ :=
  match f with
  | .energyF => s.energy
  | .structureF => s.structureVal

/-- `energyDerivatives[i]` (lines 43-53): the backward difference at `i`,
with 0 at index 0 (the unshift) and 0 whenever a neighbour is invalid. -/
def energyDerivAt (f : EnergyField) (d : List Sample) (i : ℕ) : ℚ :=
  if i = 0 then 0
  else
    match fieldValue f (sampleAt d i), fieldValue f (sampleAt d (i - 1)) with
    | some a, some b => a - b
    | _, _ => 0

/-- One control point (lines 56-110) for index `i` of a series of length
`n`: height is a cubic power of clamped energy times 150 plus a boost of
100 per unit of local derivative magnitude; the horizontal placement is an
expanding 5-turn spiral with structure- and derivative-modulated lateral
oscillation. -/
noncomputable def controlPoint (n : ℕ) (i : ℕ) (energy structureQ deriv : ℚ) : V3 :=
  let baseHeight : ℝ := ((max 0 energy : ℚ) : ℝ) ^ (3 : ℕ) * 150
  let energyChangeRate : ℚ := |deriv|
  let height : ℝ := baseHeight + ((energyChangeRate : ℚ) : ℝ) * 100
  let structureVariation : ℝ := ((structureQ : ℚ) : ℝ) * 30
  let t : ℝ := (i : ℝ) / (n : ℝ)
  let angle : ℝ := t * Real.pi * 2 * 5
  let radius : ℝ := 80 + t * 200 + structureVariation
  let horizontalVariation : ℝ :=
    Real.sin (t * Real.pi * 15) * 25 *
      (((structureQ : ℚ) : ℝ) + ((energyChangeRate : ℚ) : ℝ) * 2)
  ⟨Real.cos angle * (radius + horizontalVariation), height,
    Real.sin angle * (radius + horizontalVariation)⟩

/-- The indices sampled into control points (lines 56-61): the loop steps
by 5 and skips indices whose selected energy field is not numeric. -/
def derivedIndices (d : List Sample) : List ℕ :=
  (List.range d.length).filter fun i =>
    i % 5 = 0 && (fieldValue (detectEnergyField d) (sampleAt d i)).isSome

/-- The control points derived from the energy series `d` and the
structure series `sd` (`main.js` passes the energy data for both). -/
noncomputable def derivedPoints (d sd : List Sample) : List V3 :=
  (derivedIndices d).map fun i =>
    controlPoint d.length i
      ((fieldValue (detectEnergyField d) (sampleAt d i)).getD 0)
      (((sampleAt sd i).structureVal).getD 0)
      (energyDerivAt (detectEnergyField d) d i)

/-- One point of the fallback spiral (lines 116-124): 3 turns, expanding
radius, oscillating height. -/
noncomputable def fallbackSpiralPoint (i : ℕ) : V3 :=
  let t : ℝ := (i : ℝ) / 36
  let angle : ℝ := t * Real.pi * 2 * 3
  let radius : ℝ := 100 + t * 150
  ⟨Real.cos angle * radius, 20 + Real.sin (t * Real.pi * 4) * 30,
    Real.sin angle * radius⟩

/-- The control-point list built by `createRollercoaster`
(`rollercoaster.js` lines 11-130): `none` when the input is empty (the JS
returns `null`), otherwise the derived points with the 36-point fallback
spiral appended when fewer than 4 points could be derived.  The
`CatmullRomCurve3` is then built from exactly this list; the `try/catch`
around the tube geometry concerns the rendering library and is not
modelled. -/
noncomputable def createRollercoasterPoints (d sd : List Sample) : Option (List V3) :=
  if d.length = 0 then none
  else
    let pts := derivedPoints d sd
    some (if pts.length < 4 then pts ++ (List.range 36).map fallbackSpiralPoint else pts)

/-- A one-sample series whose energy is invalid: zero derivable control
points. -/
def dC6 : List Sample := [⟨some 0, none, none⟩]

/-- `config.defaultHeightAboveTrack` (`web/config.js`). -/
def defaultHeightAboveTrack : ℚ := 4

/-- `energyData[i]` for a JS index that may be out of range, with the
existence-and-numeric guard of `updateCameraPosition` (lines 116-118). -/
def energyAtZ (d : List Sample) (i : ℤ) : Option ℚ :=
  if 0 ≤ i ∧ i < (d.length : ℤ) then (sampleAt d i.toNat).energy else none

/-- `energyChangeRate` as computed by `updateCameraPosition` (`camera.js`
lines 110-121): a central difference around
`currentEnergyIndex = Math.floor(findNormalizedPositionFromTime(t, d))`. -/
def cameraEnergyChangeRate (time : ℚ) (d : List Sample) : ℚ :=
  let currentEnergyIndex : ℤ := ⌊findNormalizedPositionFromTime time d⌋
  let prevEnergyIndex : ℤ := max 0 (currentEnergyIndex - 1)
  let nextEnergyIndex : ℤ := min ((d.length : ℤ) - 1) (currentEnergyIndex + 1)
  match energyAtZ d nextEnergyIndex, energyAtZ d prevEnergyIndex with
  | some a, some b => (a - b) / 2
  | _, _ => 0

/-- `safePosition` (`camera.js` line 124): the clamp of the normalized
position into [0, 0.99] before any path query. -/
def safePosition (time : ℚ) (d : List Sample) : ℚ :=
  max 0 (min (99 / 100) (findNormalizedPositionFromTime time d))

/-- The look-ahead curve parameter (lines 168-170): base distance 0.01
grown with the derivative magnitude, capped at 0.99. -/
def lookAheadPosition (time : ℚ) (d : List Sample) : ℚ :=
  min (safePosition time d + 1 / 100 * (1 + |cameraEnergyChangeRate time d| * 4)) (99 / 100)

/-- The tilt sample just ahead (lines 185-187). -/
def tiltNextParam (time : ℚ) (d : List Sample) : ℚ :=
  min (safePosition time d + 1 / 100) (99 / 100)

/-- The tilt sample just behind (lines 188-190). -/
def tiltPrevParam (time : ℚ) (d : List Sample) : ℚ :=
  max (safePosition time d - 1 / 100) 0

/-- The orbit-mode target parameter (`toggleViewMode`, lines 73-74). -/
def orbitTargetParam (time : ℚ) (d : List Sample) : ℚ :=
  min (findNormalizedPositionFromTime time d + 5 / 100) (99 / 100)

/-- Componentwise vector sum. -/
def addV3 (a b : V3) : V3 := ⟨a.x + b.x, a.y + b.y, a.z + b.z⟩

/-- Scalar multiple. -/
def smulV3 (c : ℝ) (a : V3) : V3 := ⟨c * a.x, c * a.y, c * a.z⟩

/-- `THREE.Vector3.crossVectors`. -/
def crossV3 (a b : V3) : V3 :=
  ⟨a.y * b.z - a.z * b.y, a.z * b.x - a.x * b.z, a.x * b.y - a.y * b.x⟩

/-- `THREE.Vector3.length`. -/
noncomputable def normV3 (a : V3) : ℝ := Real.sqrt (a.x ^ 2 + a.y ^ 2 + a.z ^ 2)

/-- `THREE.Vector3.normalize` divides by `length || 1`. -/
noncomputable def normalizeV3 (a : V3) : V3 :=
  smulV3 (1 / (if normV3 a = 0 then 1 else normV3 a)) a

/-- `Math.sign`. -/
noncomputable def signR (x : ℝ) : ℝ := if 0 < x then 1 else if x < 0 then -1 else 0

/-- A camera pose: its position and its Euler rotation. -/
structure Pose where
  pos : V3
  rot : V3

/-- `updateCameraPosition` (`camera.js` lines 97-242), in first-person
mode with a live audio element and valid data at the current index.  The
curve object is abstracted by its two query functions `P = getPointAt` and
`T = getTangentAt`; THREE's `camera.lookAt` is abstracted by `lookAtRot`,
the Euler rotation of a camera standing at the first argument and looking
at the second; `Math.random()` is abstracted by the stream `rng` (the
three shake draws are `rng 0`, `rng 1`, `rng 2`).  The `typeof` validity
checks on query results always pass in the model, and the `try/catch`
wrappers are dead because no modelled operation throws. -/
noncomputable def updateCameraPosition (P T : ℚ → V3) (lookAtRot : V3 → V3 → V3)
    (mouseDrag : Bool) (time : ℚ) (d : List Sample) (cam : Pose) (rng : ℕ → ℚ) : Pose :=
  let energyChangeRate := cameraEnergyChangeRate time d
  let sp := safePosition time d
  let position := P sp
  let tangent := T sp
  let up : V3 := ⟨0, 1, 0⟩
  let binormal := normalizeV3 (crossV3 tangent up)
  let normal := normalizeV3 (crossV3 binormal tangent)
  let heightAboveTrack : ℚ := max 2 (defaultHeightAboveTrack - energyChangeRate * 3)
  let camPos := addV3 position (smulV3 ((heightAboveTrack : ℚ) : ℝ) normal)
  let lookAtPoint := P (lookAheadPosition time d)
  let rot0 := if mouseDrag then cam.rot else lookAtRot camPos lookAtPoint
  let nextPos := P (tiltNextParam time d)
  let prevPos := P (tiltPrevParam time d)
  let dx := nextPos.x - prevPos.x
  let dz := nextPos.z - prevPos.z
  let horizontalDistance := Real.sqrt (dx * dx + dz * dz)
  let rot1 :=
    if 1 / 1000 < horizontalDistance then
      let slope := (nextPos.y - prevPos.y) / horizontalDistance
      let tiltMultiplier : ℝ := 1 + |((energyChangeRate : ℚ) : ℝ)| * 5
      let tiltAngle := Real.arctan slope * (8 / 10) * tiltMultiplier
      let turnDirection := signR (dx * prevPos.z - dz * prevPos.x)
      let turnSharpness := min 1 (Real.sqrt (dx * dx + dz * dz) / 10)
      let rollAngle := turnDirection * turnSharpness * (2 / 10) * tiltMultiplier
      V3.mk (rot0.x + tiltAngle) rot0.y (rot0.z + rollAngle)
    else rot0
  let finalPos :=
    if 1 / 20 < |energyChangeRate| then
      let shakeIntensity : ℝ := |((energyChangeRate : ℚ) : ℝ)| * (5 / 100)
      V3.mk (camPos.x + (((rng 0 : ℚ) : ℝ) - 1 / 2) * shakeIntensity)
        (camPos.y + (((rng 1 : ℚ) : ℝ) - 1 / 2) * shakeIntensity)
        (camPos.z + (((rng 2 : ℚ) : ℝ) - 1 / 2) * shakeIntensity)
    else camPos
  ⟨finalPos, rot1⟩

/-- Constant curve point function for the determinism counterexample. -/
noncomputable def pathPointC9 : ℚ → V3 := fun _ => ⟨0, 0, 0⟩

/-- Constant unit tangent along the x-axis. -/
noncomputable def tangentC9 : ℚ → V3 := fun _ => ⟨1, 0, 0⟩

/-- A lookAt abstraction that always yields the zero rotation. -/
noncomputable def lookAtRotC9 : V3 → V3 → V3 := fun _ _ => ⟨0, 0, 0⟩

/-- Starting camera state for the determinism counterexample. -/
noncomputable def camC9 : Pose := ⟨⟨0, 0, 0⟩, ⟨0, 0, 0⟩⟩

/-- Two-sample series with an energy step of 0.2: the camera derivative is
(0.2 - 0)/2 = 0.1, above the 0.05 shake threshold. -/
def dC9 : List Sample := [⟨some 0, some 0, none⟩, ⟨some 1, some (1/5), none⟩]

/-- Unfolding of one loop iteration (`left <= right`). -/
theorem fctiAux_step (time : ℚ) (d : List Sample) (left : ℕ) (right : ℤ)
    (h : (left : ℤ) ≤ right) :
    findClosestTimeIndexAux time d left right =
      if optLT (sampleAt d ((left + right.toNat) / 2)).time time then
        findClosestTimeIndexAux time d ((left + right.toNat) / 2 + 1) right
      else if optGT (sampleAt d ((left + right.toNat) / 2)).time time then
        findClosestTimeIndexAux time d left (((left + right.toNat) / 2 : ℕ) - 1)
      else (left + right.toNat) / 2 := by
  rw [findClosestTimeIndexAux.eq_def, if_pos h]

/-- Unfolding of the code after the loop (`left > right`). -/
theorem fctiAux_exit (time : ℚ) (d : List Sample) (left : ℕ) (right : ℤ)
    (h : ¬ (left : ℤ) ≤ right) :
    findClosestTimeIndexAux time d left right =
      if right < 0 then 0
      else if d.length ≤ left then d.length - 1
      else if optLTO (absDiffO (sampleAt d right.toNat).time time)
          (absDiffO (sampleAt d left).time time) then right.toNat
      else left := by
  rw [findClosestTimeIndexAux.eq_def, if_neg h]

/-- Loop invariant for the binary search over a valid, strictly
time-ascending series: everything strictly left of the window is earlier
than `time`, everything strictly right of it is later; then the search
returns an in-range index whose time is (weakly) closest to `time` among
all samples, and the exact index on an exact hit. -/
theorem fctiAux_nearest (time : ℚ) (d : List Sample) (tm : ℕ → ℚ)
    (ht : ∀ i, i < d.length → (sampleAt d i).time = some (tm i))
    (hs : ∀ j, j < d.length → ∀ i, i < j → tm i < tm j)
    (hne : d ≠ []) :
    ∀ n (left : ℕ) (right : ℤ), (right + 1 - left).toNat = n →
      (left : ℤ) ≤ right + 1 → right < (d.length : ℤ) →
      (∀ i : ℕ, i < left → tm i < time) →
      (∀ i : ℕ, right < (i : ℤ) → i < d.length → time < tm i) →
      findClosestTimeIndexAux time d left right < d.length ∧
      (∀ j, j < d.length →
        |tm (findClosestTimeIndexAux time d left right) - time| ≤ |tm j - time|) ∧
      (∀ j, j < d.length → tm j = time → findClosestTimeIndexAux time d left right = j) := by
  have hlen : 0 < d.length := List.length_pos.mpr hne
  have hmono : ∀ i j, i ≤ j → j < d.length → tm i ≤ tm j := by
    intro i j hij hj
    rcases eq_or_lt_of_le hij with rfl | hlt
    · exact le_refl _
    · exact le_of_lt (hs j hj i hlt)
  intro n
  induction n using Nat.strong_induction_on with
  | _ n IH =>
    intro left right hn hlr hrd hLB hUB
    by_cases hc : (left : ℤ) ≤ right
    · rw [fctiAux_step time d left right hc]
      set m : ℕ := (left + right.toNat) / 2 with hmdef
      have hm1 : left ≤ m := by omega
      have hm2 : (m : ℤ) ≤ right := by omega
      have hmd : m < d.length := by omega
      rw [ht m hmd]
      simp only [optLT, optGT, decide_eq_true_eq]
      rcases lt_trichotomy (tm m) time with h1 | h1 | h1
      · rw [if_pos h1]
        refine IH ((right + 1 - ((m : ℤ) + 1)).toNat) (by omega) (m + 1) right (by omega)
          (by omega) hrd ?_ hUB
        intro i hi
        rcases lt_trichotomy i m with h2 | rfl | h2
        · exact lt_trans (hs m hmd i h2) h1
        · exact h1
        · omega
      · rw [if_neg (by rw [h1]; exact lt_irrefl time), if_neg (by rw [h1]; exact lt_irrefl time)]
        refine ⟨hmd, ?_, ?_⟩
        · intro j hj
          rw [h1, sub_self, abs_zero]
          exact abs_nonneg _
        · intro j hj hjt
          rcases lt_trichotomy j m with h2 | rfl | h2
          · exact absurd (hs m hmd j h2) (by rw [hjt, h1]; exact lt_irrefl time)
          · rfl
          · exact absurd (hs j hj m h2) (by rw [hjt, h1]; exact lt_irrefl time)
      · rw [if_neg (by exact fun hx => absurd h1 (not_lt_of_lt hx)), if_pos h1]
        refine IH (((m : ℤ) - 1 + 1 - left).toNat) (by omega) left ((m : ℤ) - 1) ?_
          (by omega) (by omega) hLB ?_
        · norm_num
        · intro i hi hid
          rcases lt_trichotomy i m with h2 | rfl | h2
          · omega
          · exact h1
          · exact lt_trans h1 (hs i hid m h2)
    · rw [fctiAux_exit time d left right hc]
      have hre : right = (left : ℤ) - 1 := by omega
      have hall : ∀ i, i < d.length → tm i ≠ time := by
        intro i hid
        rcases lt_or_le (i : ℤ) left with h2 | h2
        · exact ne_of_lt (hLB i (by omega))
        · exact ne_of_gt (hUB i (by omega) hid)
      by_cases h0 : right < 0
      · rw [if_pos h0]
        have hl0 : left = 0 := by omega
        have habove : ∀ i, i < d.length → time < tm i := fun i hid => hUB i (by omega) hid
        refine ⟨hlen, ?_, ?_⟩
        · intro j hj
          have h3 : time < tm 0 := habove 0 hlen
          have h4 : tm 0 ≤ tm j := hmono 0 j (Nat.zero_le j) hj
          rw [abs_of_pos (by linarith), abs_of_pos (by linarith)]
          linarith
        · intro j hj hjt
          exact absurd hjt (hall j hj)
      · rw [if_neg h0]
        by_cases h5 : d.length ≤ left
        · rw [if_pos h5]
          have hleq : left = d.length := by omega
          have hbelow : ∀ i, i < d.length → tm i < time := fun i hid => hLB i (by omega)
          refine ⟨by omega, ?_, ?_⟩
          · intro j hj
            have h3 : tm (d.length - 1) < time := hbelow _ (by omega)
            have h4 : tm j ≤ tm (d.length - 1) := hmono j (d.length - 1) (by omega) (by omega)
            rw [abs_of_neg (by linarith), abs_of_neg (by linarith)]
            linarith
          · intro j hj hjt
            exact absurd hjt (hall j hj)
        · rw [if_neg h5]
          have hl1 : 1 ≤ left := by omega
          have hrn : right.toNat = left - 1 := by omega
          have hld : left < d.length := by omega
          have hpd : left - 1 < d.length := by omega
          rw [hrn, ht (left - 1) hpd, ht left hld]
          simp only [absDiffO, Option.map_some', optLTO, decide_eq_true_eq]
          have hA : tm (left - 1) < time := hLB (left - 1) (by omega)
          have hB : time < tm left := hUB left (by omega) hld
          have key : ∀ j, j < d.length →
              |tm (left - 1) - time| ≤ |tm j - time| ∨ |tm left - time| ≤ |tm j - time| := by
            intro j hj
            rcases lt_or_le j left with h6 | h6
            · left
              have h7 : tm j ≤ tm (left - 1) := hmono j (left - 1) (by omega) hpd
              rw [abs_of_neg (by linarith), abs_of_neg (by linarith)]
              linarith
            · right
              have h7 : tm left ≤ tm j := hmono left j h6 hj
              rw [abs_of_pos (by linarith), abs_of_pos (by linarith)]
              linarith
          by_cases h8 : |tm (left - 1) - time| < |tm left - time|
          · rw [if_pos h8]
            refine ⟨hpd, ?_, fun j hj hjt => absurd hjt (hall j hj)⟩
            intro j hj
            rcases key j hj with h9 | h9
            · exact h9
            · exact le_trans (le_of_lt h8) h9
          · rw [if_neg h8]
            refine ⟨hld, ?_, fun j hj hjt => absurd hjt (hall j hj)⟩
            intro j hj
            rcases key j hj with h9 | h9
            · exact le_trans (le_of_not_lt h8) h9
            · exact h9

/-- C1: for every valid, strictly time-ascending energy series and every
query time, `findClosestTimeIndex` returns an in-range index whose sample
time has the smallest absolute difference to the query time among all
samples, and an exact time hit returns exactly that sample's index. -/
theorem findClosestTimeIndex_nearest (time : ℚ) (d : List Sample) (tm : ℕ → ℚ)
    (ht : ∀ i, i < d.length → (sampleAt d i).time = some (tm i))
    (hs : ∀ j, j < d.length → ∀ i, i < j → tm i < tm j)
    (hne : d ≠ []) :
    findClosestTimeIndex time d < d.length ∧
    (∀ j, j < d.length → |tm (findClosestTimeIndex time d) - time| ≤ |tm j - time|) ∧
    (∀ j, j < d.length → tm j = time → findClosestTimeIndex time d = j) := by
  have hlen : 0 < d.length := List.length_pos.mpr hne
  exact fctiAux_nearest time d tm ht hs hne (((d.length : ℤ) - 1 + 1 - (0 : ℕ)).toNat)
    0 ((d.length : ℤ) - 1) rfl (by omega) (by omega)
    (fun i hi => absurd hi (Nat.not_lt_zero i))
    (fun i hi hid => absurd hi (by omega))

/-- Witness for C1 on the concrete series `dC1w` at query time 1
(an exact hit on the middle sample). -/
theorem findClosestTimeIndex_nearest_witness :
    findClosestTimeIndex 1 dC1w < dC1w.length ∧
    (∀ j, j < dC1w.length → |tmC1w (findClosestTimeIndex 1 dC1w) - 1| ≤ |tmC1w j - 1|) ∧
    (∀ j, j < dC1w.length → tmC1w j = 1 → findClosestTimeIndex 1 dC1w = j) :=
  findClosestTimeIndex_nearest 1 dC1w tmC1w (by decide) (by decide) (by decide)

/-- C5 counterexample: on a series with an invalid gap sample the binary
search probe lands on the invalid sample, both NaN comparisons are false,
and `findClosestTimeIndex` returns that invalid index (index 1 of `dC5`),
contradicting "never returns an index whose sample is invalid". -/
theorem findClosestTimeIndex_returns_invalid :
    findClosestTimeIndex 2 dC5 = 1 ∧ (sampleAt dC5 1).time = none := by
  constructor
  · rw [findClosestTimeIndex, findClosestTimeIndexAux.eq_def]
    simp [dC5, sampleAt, optLT, optGT]
  · decide

/-- C5 amended: `findClosestTimeIndex` performs no validity checks; when
its first binary-search probe (the midpoint of the whole series) has a
non-numeric time, both NaN comparisons fail and that probe index is
returned immediately, whether or not the sample is valid. -/
theorem findClosestTimeIndex_invalid_probe (time : ℚ) (d : List Sample)
    (hne : d ≠ []) (hmid : (sampleAt d ((d.length - 1) / 2)).time = none) :
    findClosestTimeIndex time d = (d.length - 1) / 2 := by
  have hlen : 0 < d.length := List.length_pos.mpr hne
  rw [findClosestTimeIndex, fctiAux_step time d 0 _ (by omega)]
  have harg : (0 + ((d.length : ℤ) - 1).toNat) / 2 = (d.length - 1) / 2 := by omega
  rw [harg, hmid]
  simp [optLT, optGT]

/-- Witness for the amended C5 on the concrete series `dC5`. -/
theorem findClosestTimeIndex_invalid_probe_witness :
    findClosestTimeIndex 2 dC5 = (dC5.length - 1) / 2 :=
  findClosestTimeIndex_invalid_probe 2 dC5 (by decide) (by decide)

/-- Strict per-index ascent gives weak monotonicity of the time values. -/
theorem tm_mono (d : List Sample) (tm : ℕ → ℚ)
    (hs : ∀ j, j < d.length → ∀ i, i < j → tm i < tm j) :
    ∀ i j, i ≤ j → j < d.length → tm i ≤ tm j := by
  intro i j hij hj
  rcases eq_or_lt_of_le hij with rfl | hlt
  · exact le_refl _
  · exact le_of_lt (hs j hj i hlt)

/-- When the query time lies strictly below every sample time, the bracket
loop of `findExactIndexFromTime` never moves `left` off 0: every probe is
valid, and the probe comparison `energyData[mid].time < time` is always
false, so only `right` shrinks. -/
theorem exactLoop_all_above (time : ℚ) (d : List Sample) (tm : ℕ → ℚ)
    (ht : ∀ i, i < d.length → (sampleAt d i).time = some (tm i))
    (hgt : ∀ i, i < d.length → time < tm i) :
    ∀ n (right : ℕ), right = n → right < d.length →
      ∃ r, r ≤ right ∧ exactLoop time d 0 right = some (0, r) := by
  intro n
  induction n using Nat.strong_induction_on with
  | _ n IH =>
    intro right hn hrd
    subst hn
    by_cases hc : 1 < right - 0
    · have hmd : right / 2 < d.length := by omega
      have hvalid : validTimeAt d (right / 2) = true := by
        rw [validTimeAt, ht _ hmd, Option.isSome_some]
      have hcmp : optLT (sampleAt d (right / 2)).time time = false := by
        rw [ht _ hmd]
        simp only [optLT, decide_eq_false_iff_not, not_lt]
        exact le_of_lt (hgt _ hmd)
      rw [exactLoop.eq_def, if_pos hc, if_neg (by simp [hvalid]),
        if_neg (by simp [hcmp])]
      obtain ⟨r, hr1, hr2⟩ := IH (right / 2) (by omega) _ rfl (by omega)
      refine ⟨r, by omega, ?_⟩
      rw [show (0 + right) / 2 = right / 2 from by omega]
      exact hr2
    · rw [exactLoop.eq_def, if_neg hc]
      exact ⟨right, le_refl _, rfl⟩

/-- The normalized position is always at most 0.99: every return path of
`findNormalizedPositionFromTime` is 0, 0.99 or `min 0.99 _`. -/
theorem fnp_le (time : ℚ) (d : List Sample) :
    findNormalizedPositionFromTime time d ≤ 99 / 100 := by
  rw [findNormalizedPositionFromTime]
  by_cases h0 : d.length = 0
  · rw [if_pos h0]; norm_num
  · rw [if_neg h0]
    dsimp only
    by_cases h1 : findExactIndexFromTime time d ≤ 0
    · rw [if_pos h1]; norm_num
    · rw [if_neg h1]
      by_cases h2 : (d.length : ℚ) - 1 ≤ findExactIndexFromTime time d
      · rw [if_pos h2]
      · rw [if_neg h2]
        exact min_le_left _ _

/-- The normalized position is never negative. -/
theorem fnp_nonneg (time : ℚ) (d : List Sample) :
    0 ≤ findNormalizedPositionFromTime time d := by
  rw [findNormalizedPositionFromTime]
  by_cases h0 : d.length = 0
  · rw [if_pos h0]
  · rw [if_neg h0]
    dsimp only
    by_cases h1 : findExactIndexFromTime time d ≤ 0
    · rw [if_pos h1]
    · rw [if_neg h1]
      by_cases h2 : (d.length : ℚ) - 1 ≤ findExactIndexFromTime time d
      · rw [if_pos h2]; norm_num
      · rw [if_neg h2]
        push_neg at h1 h2
        have hrate : (0 : ℚ) ≤
            match (sampleAt d (min ((⌊findExactIndexFromTime time d⌋).toNat + 1)
                (d.length - 1))).energy,
              (sampleAt d (⌊findExactIndexFromTime time d⌋).toNat).energy with
            | some a, some b => |a - b|
            | _, _ => 0 := by
          rcases (sampleAt d (min ((⌊findExactIndexFromTime time d⌋).toNat + 1)
              (d.length - 1))).energy with _ | a
          · exact le_refl 0
          · rcases (sampleAt d (⌊findExactIndexFromTime time d⌋).toNat).energy with _ | b
            · exact le_refl 0
            · exact abs_nonneg _
        refine le_min (by norm_num) ?_
        have hbase : 0 ≤ findExactIndexFromTime time d / ((d.length : ℚ) - 1) :=
          div_nonneg (le_of_lt h1) (by linarith)
        have hmult : (0 : ℚ) ≤ 3 / 2 + (match (sampleAt d (min ((⌊findExactIndexFromTime time d⌋).toNat + 1)
                (d.length - 1))).energy,
              (sampleAt d (⌊findExactIndexFromTime time d⌋).toNat).energy with
            | some a, some b => |a - b|
            | _, _ => 0) * 5 := by
          nlinarith
        exact mul_nonneg hbase hmult

/-- If the query time strictly precedes the first sample of a valid,
strictly ascending series, `findExactIndexFromTime` returns 0 or a
negative extrapolated value: in all cases a value at most 0. -/
theorem fei_before_first (time : ℚ) (d : List Sample) (tm : ℕ → ℚ)
    (ht : ∀ i, i < d.length → (sampleAt d i).time = some (tm i))
    (hs : ∀ j, j < d.length → ∀ i, i < j → tm i < tm j)
    (hne : d ≠ []) (h0 : time < tm 0) :
    findExactIndexFromTime time d ≤ 0 := by
  have hlen : 0 < d.length := List.length_pos.mpr hne
  have hmono := tm_mono d tm hs
  have hgt : ∀ i, i < d.length → time < tm i := fun i hi =>
    lt_of_lt_of_le h0 (hmono 0 i (Nat.zero_le i) hi)
  rw [findExactIndexFromTime, if_neg (by omega)]
  have hv0 : validTimeAt d 0 = true := by
    rw [validTimeAt, ht 0 hlen, Option.isSome_some]
  have hvl : validTimeAt d (d.length - 1) = true := by
    rw [validTimeAt, ht _ (by omega), Option.isSome_some]
  rw [if_neg (by simp [hv0, hvl])]
  obtain ⟨r, hr1, hr2⟩ :=
    exactLoop_all_above time d tm ht hgt (d.length - 1) (d.length - 1) rfl (by omega)
  rw [hr2]
  have hrd : r < d.length := by omega
  have ht0 : timeValD d 0 = tm 0 := by rw [timeValD, ht 0 hlen]; rfl
  have htr : timeValD d r = tm r := by rw [timeValD, ht r hrd]; rfl
  dsimp only
  rw [ht0, htr]
  have hA : time < tm 0 := h0
  have hAr : tm 0 ≤ tm r := hmono 0 r (Nat.zero_le r) hrd
  by_cases hb1 : |tm 0 - time| < 1 / 1000
  · rw [if_pos hb1]
    norm_num
  · rw [if_neg hb1]
    have e0 : |tm 0 - time| = tm 0 - time := abs_of_pos (by linarith)
    have er : |tm r - time| = tm r - time := abs_of_pos (by linarith)
    have hb2 : ¬ |tm r - time| < 1 / 1000 := by
      rw [er]
      rw [e0] at hb1
      intro hcon
      exact hb1 (by linarith)
    rw [if_neg hb2]
    by_cases hb3 : tm r - tm 0 ≤ 0
    · rw [if_pos hb3]
      norm_num
    · rw [if_neg hb3]
      have hfrac : (time - tm 0) / (tm r - tm 0) < 0 :=
        div_neg_of_neg_of_pos (by linarith) (by linarith)
      push_cast
      linarith

/-- C2 counterexample: on the valid, strictly ascending series `dC1w`
(times 0, 1, 2) the query time 5 follows the last sample, yet
`findExactIndexFromTime` returns the extrapolated value 5, strictly above
the last valid index `length - 1 = 2` — the function is not clamped. -/
theorem findExactIndexFromTime_extrapolates :
    findExactIndexFromTime 5 dC1w = 5 ∧ ((dC1w.length : ℚ) - 1) < 5 := by
  have e1 : exactLoop 5 dC1w 1 2 = some (1, 2) := by
    rw [exactLoop.eq_def]
    norm_num
  have e0 : exactLoop 5 dC1w 0 2 = some (1, 2) := by
    rw [exactLoop.eq_def]
    simp only [dC1w] at e1 ⊢
    norm_num [validTimeAt, sampleAt, optLT]
    exact e1
  have e2 : exactLoop 5 dC1w 0 (dC1w.length - 1) = some (1, 2) := by
    rw [show dC1w.length - 1 = 2 from rfl]
    exact e0
  constructor
  · rw [findExactIndexFromTime, if_neg (by norm_num [dC1w]),
      if_neg (by norm_num [dC1w, validTimeAt, sampleAt]), e2]
    norm_num [timeValD, sampleAt, dC1w]
  · norm_num [dC1w]

/-- C2 (amended): `findExactIndexFromTime` itself never clamps.  When the
query time precedes the first sample it returns a value at most 0 — index
0 on a 0.001-tolerance hit, otherwise a negative extrapolation — and (per
the counterexample) a query past the last sample can return a value above
`length - 1`; the clamping the spec describes is done by the caller
`findNormalizedPositionFromTime`, not by this function. -/
theorem findExactIndexFromTime_unclamped (time : ℚ) (d : List Sample) (tm : ℕ → ℚ)
    (ht : ∀ i, i < d.length → (sampleAt d i).time = some (tm i))
    (hs : ∀ j, j < d.length → ∀ i, i < j → tm i < tm j)
    (h2 : 2 ≤ d.length) (h0 : time < tm 0) :
    findExactIndexFromTime time d ≤ 0 :=
  fei_before_first time d tm ht hs (List.length_pos.mp (by omega)) h0

/-- Witness for the amended C2 on `dC1w` at query time -1 (one second
before the first sample). -/
theorem findExactIndexFromTime_unclamped_witness :
    findExactIndexFromTime (-1) dC1w ≤ 0 :=
  findExactIndexFromTime_unclamped (-1) dC1w tmC1w (by decide) (by decide) (by decide)
    (by decide)

/-- C4: for a non-empty, valid, strictly time-ascending series, any query
before the first sample resolves to discrete index 0 and normalized
position 0; any query after the last sample resolves to the last discrete
index and a normalized position at most 0.99, never exactly 1. -/
theorem resolveIndex_out_of_range (time : ℚ) (d : List Sample) (tm : ℕ → ℚ)
    (ht : ∀ i, i < d.length → (sampleAt d i).time = some (tm i))
    (hs : ∀ j, j < d.length → ∀ i, i < j → tm i < tm j)
    (hne : d ≠ []) :
    (time < tm 0 →
      findClosestTimeIndex time d = 0 ∧ findNormalizedPositionFromTime time d = 0) ∧
    (tm (d.length - 1) < time →
      findClosestTimeIndex time d = d.length - 1 ∧
      findNormalizedPositionFromTime time d ≤ 99 / 100 ∧
      findNormalizedPositionFromTime time d ≠ 1) := by
  have hlen : 0 < d.length := List.length_pos.mpr hne
  have hmono := tm_mono d tm hs
  obtain ⟨hin, hnear, hexact⟩ := fctiAux_nearest time d tm ht hs hne
    (((d.length : ℤ) - 1 + 1 - (0 : ℕ)).toNat) 0 ((d.length : ℤ) - 1) rfl (by omega)
    (by omega) (fun i hi => absurd hi (Nat.not_lt_zero i))
    (fun i hi hid => absurd hi (by omega))
  rw [show findClosestTimeIndexAux time d 0 ((d.length : ℤ) - 1) =
    findClosestTimeIndex time d from rfl] at hin hnear
  constructor
  · intro h0
    have hgt : ∀ i, i < d.length → time < tm i := fun i hi =>
      lt_of_lt_of_le h0 (hmono 0 i (Nat.zero_le i) hi)
    constructor
    · by_contra hr0
      have hrpos : 0 < findClosestTimeIndex time d := Nat.pos_of_ne_zero hr0
      have hlt : tm 0 < tm (findClosestTimeIndex time d) := hs _ hin 0 hrpos
      have hj := hnear 0 hlen
      rw [abs_of_pos (by have := hgt _ hin; linarith),
        abs_of_pos (by have := hgt 0 hlen; linarith)] at hj
      linarith
    · have hfei := fei_before_first time d tm ht hs hne h0
      rw [findNormalizedPositionFromTime, if_neg (by omega)]
      dsimp only
      rw [if_pos hfei]
  · intro hl
    have hlt2 : ∀ i, i < d.length → tm i < time := fun i hi =>
      lt_of_le_of_lt (hmono i (d.length - 1) (by omega) (by omega)) hl
    refine ⟨?_, fnp_le time d, ?_⟩
    · by_contra hrne
      have hkl : findClosestTimeIndex time d < d.length - 1 := by
        have := hin
        omega
      have hlt3 : tm (findClosestTimeIndex time d) < tm (d.length - 1) :=
        hs (d.length - 1) (by omega) _ hkl
      have hj := hnear (d.length - 1) (by omega)
      rw [abs_of_neg (by have := hlt2 _ hin; linarith),
        abs_of_neg (by have := hlt2 (d.length - 1) (by omega); linarith)] at hj
      linarith
    · intro hcon
      have := fnp_le time d
      rw [hcon] at this
      norm_num at this

/-- Witness for C4 on `dC1w`: query time -1 precedes the first sample,
query time 9 follows the last. -/
theorem resolveIndex_out_of_range_witness :
    (findClosestTimeIndex (-1) dC1w = 0 ∧
      findNormalizedPositionFromTime (-1) dC1w = 0) ∧
    (findClosestTimeIndex 9 dC1w = dC1w.length - 1 ∧
      findNormalizedPositionFromTime 9 dC1w ≤ 99 / 100 ∧
      findNormalizedPositionFromTime 9 dC1w ≠ 1) := by
  constructor
  · exact (resolveIndex_out_of_range (-1) dC1w tmC1w (by decide) (by decide)
      (by decide)).1 (by decide)
  · exact (resolveIndex_out_of_range 9 dC1w tmC1w (by decide) (by decide)
      (by decide)).2 (by decide)

/-- C3: the zone state machine emits a transition event exactly when the
candidate zone differs from the stored current zone (payload = new zone's
name and the triggering energy), and feeding the monotone zone sequence
[0,0,0,1,1,2,2,2] from the initial zone-0 state emits exactly two events:
first to zone 1 ("medium"), then to zone 2 ("high"). -/
theorem zoneMachine_two_transitions :
    (∀ current zoneValue energy,
      ((zoneStep current zoneValue energy).2 = none ↔
        candidateZoneName zoneValue energy = current) ∧
      (∀ ev, (zoneStep current zoneValue energy).2 = some ev →
        ev.zone = candidateZoneName zoneValue energy ∧ ev.energy = energy)) ∧
    (∀ e0 e1 e2 e3 e4 e5 e6 e7 : ℚ,
      runZoneMachine initialZone
        [(some 0, e0), (some 0, e1), (some 0, e2), (some 1, e3),
         (some 1, e4), (some 2, e5), (some 2, e6), (some 2, e7)] =
        ("high", [⟨"medium", e3⟩, ⟨"high", e5⟩])) := by
  constructor
  · intro current zoneValue energy
    constructor
    · by_cases h : candidateZoneName zoneValue energy = current
      · simp [zoneStep, h]
      · simp [zoneStep, h]
    · intro ev hev
      by_cases h : candidateZoneName zoneValue energy = current
      · simp [zoneStep, h] at hev
      · simp [zoneStep, h] at hev
        rw [← hev]
        exact ⟨rfl, rfl⟩
  · intro e0 e1 e2 e3 e4 e5 e6 e7
    simp [runZoneMachine, zoneStep, candidateZoneName, getZoneNameFromValue,
      initialZone, zoneNames, zoneCount]

/-- Witness for C3: the concrete run with concrete energies. -/
theorem zoneMachine_two_transitions_witness :
    runZoneMachine initialZone
      [(some 0, 1/10), (some 0, 1/10), (some 0, 2/10), (some 1, 4/10),
       (some 1, 5/10), (some 2, 8/10), (some 2, 9/10), (some 2, 9/10)] =
      ("high", [⟨"medium", 4/10⟩, ⟨"high", 8/10⟩]) :=
  zoneMachine_two_transitions.2 (1/10) (1/10) (2/10) (4/10) (5/10) (8/10) (9/10) (9/10)

/-- C10: both dispatch sites use the event type 'zoneChange' while the
environment handler is registered for 'zonechange'; since DOM event types
are case-sensitive, the handler is never invoked by the machine's
transition events. -/
theorem handleZoneChange_never_fires :
    listenerReceives dispatchedZoneEventType registeredZoneEventType = false ∧
    dispatchedZoneEventType ≠ registeredZoneEventType := by
  constructor
  · decide
  · decide

/-- C6 counterexample: for the empty energy series — from which 0 < 4
control points can be derived — `createRollercoaster` returns `null`
instead of a fallback curve, so the claim fails as stated for the empty
series. -/
theorem createRollercoaster_empty_returns_null :
    createRollercoasterPoints [] [] = none ∧ (derivedPoints [] []).length < 4 := by
  constructor
  · rw [createRollercoasterPoints]
    simp
  · simp [derivedPoints, derivedIndices]

/-- C6 (amended): for every NON-EMPTY energy series from which fewer than
4 valid control points can be derived, `createRollercoaster` does not
throw and builds its curve from the derived points with the fixed
36-point deterministic fallback spiral appended, so the final point list
has at least 36 points and downstream curve construction succeeds. -/
theorem createRollercoaster_fallback (d sd : List Sample) (hne : d ≠ [])
    (hfew : (derivedPoints d sd).length < 4) :
    ∃ pts, createRollercoasterPoints d sd = some pts ∧
      pts = derivedPoints d sd ++ (List.range 36).map fallbackSpiralPoint ∧
      36 ≤ pts.length := by
  have hlen : 0 < d.length := List.length_pos.mpr hne
  rw [createRollercoasterPoints, if_neg (by omega)]
  refine ⟨_, rfl, ?_⟩
  rw [if_pos hfew]
  refine ⟨rfl, ?_⟩
  rw [List.length_append, List.length_map, List.length_range]
  omega

/-- Witness for the amended C6 on the one-sample series `dC6` whose only
sample has an invalid energy value (0 derivable control points). -/
theorem createRollercoaster_fallback_witness :
    ∃ pts, createRollercoasterPoints dC6 dC6 = some pts ∧
      pts = derivedPoints dC6 dC6 ++ (List.range 36).map fallbackSpiralPoint ∧
      36 ≤ pts.length :=
  createRollercoaster_fallback dC6 dC6 (by decide)
    (by rw [derivedPoints, List.length_map]; decide)

/-- C7: every curve parameter the camera engine passes to `getPointAt` /
`getTangentAt` — the base position, the look-ahead position, the two tilt
samples, and the orbit-mode target — lies in [0, 0.99]; the engine never
queries the curve at or beyond 1.0. -/
theorem camera_params_in_range (time : ℚ) (d : List Sample) :
    (0 ≤ safePosition time d ∧ safePosition time d ≤ 99 / 100) ∧
    (0 ≤ lookAheadPosition time d ∧ lookAheadPosition time d ≤ 99 / 100) ∧
    (0 ≤ tiltNextParam time d ∧ tiltNextParam time d ≤ 99 / 100) ∧
    (0 ≤ tiltPrevParam time d ∧ tiltPrevParam time d ≤ 99 / 100) ∧
    (0 ≤ orbitTargetParam time d ∧ orbitTargetParam time d ≤ 99 / 100) := by
  have h0 := fnp_nonneg time d
  have h1 := fnp_le time d
  have habs : (0 : ℚ) ≤ |cameraEnergyChangeRate time d| := abs_nonneg _
  have hsp0 : 0 ≤ safePosition time d := le_max_left _ _
  have hsp1 : safePosition time d ≤ 99 / 100 :=
    max_le (by norm_num) (min_le_left _ _)
  refine ⟨⟨hsp0, hsp1⟩, ⟨?_, min_le_right _ _⟩, ⟨?_, min_le_right _ _⟩,
    ⟨le_max_right _ _, max_le (by linarith) (by norm_num)⟩,
    ⟨?_, min_le_right _ _⟩⟩
  · refine le_min ?_ (by norm_num)
    nlinarith
  · exact le_min (by linarith) (by norm_num)
  · exact le_min (by linarith) (by norm_num)

/-- C8 (code bug): `updateCameraPosition` floors the NORMALIZED POSITION —
a value that always lies in [0, 0.99] — to obtain `currentEnergyIndex`, so
that index is 0 for every playback time and every series, and the central
difference driving height, look-ahead, tilt, roll and shake is always
taken between the fixed indices min(length-1, 1) and 0.  It is not the
derivative local to the discrete index resolved from the playback time. -/
theorem cameraEnergyChangeRate_fixed_index (time : ℚ) (d : List Sample) :
    cameraEnergyChangeRate time d =
      match energyAtZ d (min ((d.length : ℤ) - 1) 1), energyAtZ d 0 with
      | some a, some b => (a - b) / 2
      | _, _ => 0 := by
  have h0 := fnp_nonneg time d
  have h1 := fnp_le time d
  have hfl : ⌊findNormalizedPositionFromTime time d⌋ = 0 := by
    rw [Int.floor_eq_zero_iff]
    constructor
    · exact h0
    · linarith
  rw [cameraEnergyChangeRate, hfl]
  norm_num

/-- C9 (amended): the pose computation has no hidden per-frame state; the
only nondeterministic input is `Math.random()`, which only the shake
branch consumes.  Whenever |energyChangeRate| ≤ 0.05 the shake is skipped
and two calls with identical playback time, curve, energy series and
starting camera state produce identical poses whatever the random
stream. -/
theorem updateCameraPosition_deterministic_no_shake (P T : ℚ → V3)
    (lookAtRot : V3 → V3 → V3) (mouseDrag : Bool) (time : ℚ) (d : List Sample)
    (cam : Pose) (rng1 rng2 : ℕ → ℚ)
    (h : |cameraEnergyChangeRate time d| ≤ 1 / 20) :
    updateCameraPosition P T lookAtRot mouseDrag time d cam rng1 =
      updateCameraPosition P T lookAtRot mouseDrag time d cam rng2 := by
  rw [updateCameraPosition, updateCameraPosition]
  dsimp only
  rw [if_neg (not_lt.mpr h), if_neg (not_lt.mpr h)]

/-- Witness for the amended C9: on the empty series the camera derivative
is 0, below the shake threshold, so two different random streams give the
same pose. -/
theorem updateCameraPosition_deterministic_no_shake_witness :
    updateCameraPosition pathPointC9 tangentC9 lookAtRotC9 false 0 [] camC9
        (fun _ => 0) =
      updateCameraPosition pathPointC9 tangentC9 lookAtRotC9 false 0 [] camC9
        (fun _ => 1) :=
  updateCameraPosition_deterministic_no_shake pathPointC9 tangentC9 lookAtRotC9 false 0 []
    camC9 (fun _ => 0) (fun _ => 1)
    (by rw [cameraEnergyChangeRate]
        norm_num [findNormalizedPositionFromTime, energyAtZ])

/-- C9 counterexample: on `dC9` the camera derivative is 0.1 > 0.05, so
the shake branch adds `(Math.random() - 0.5) * intensity` to every
position axis; two calls with identical playback time, curve, series and
camera state but different random draws produce different poses. -/
theorem updateCameraPosition_not_deterministic :
    updateCameraPosition pathPointC9 tangentC9 lookAtRotC9 false (-1) dC9 camC9
        (fun _ => 0) ≠
      updateCameraPosition pathPointC9 tangentC9 lookAtRotC9 false (-1) dC9 camC9
        (fun _ => 1) := by
  have hfei : findExactIndexFromTime (-1) dC9 ≤ 0 :=
    fei_before_first (-1) dC9 tmC1w (by decide) (by decide) (by decide) (by decide)
  have hnp : findNormalizedPositionFromTime (-1) dC9 = 0 := by
    rw [findNormalizedPositionFromTime, if_neg (by decide)]
    dsimp only
    rw [if_pos hfei]
  have hrate : cameraEnergyChangeRate (-1) dC9 = 1 / 10 := by
    rw [cameraEnergyChangeRate, hnp]
    norm_num [energyAtZ, sampleAt, dC9]
  have key : ∀ r : ℚ,
      (updateCameraPosition pathPointC9 tangentC9 lookAtRotC9 false (-1) dC9 camC9
        (fun _ => r)).pos.x = ((r : ℝ) - 1 / 2) * (1 / 200) := by
    intro r
    have habsQ : |(1 : ℚ) / 10| = 1 / 10 := abs_of_pos (by norm_num)
    have habsR : |((1 / 10 : ℚ) : ℝ)| = 1 / 10 := by
      rw [abs_of_pos (by norm_num : (0 : ℝ) < ((1 / 10 : ℚ) : ℝ))]
      norm_num
    have habsR2 : |(1 / 10 : ℝ)| = 1 / 10 := abs_of_pos (by norm_num)
    rw [updateCameraPosition]
    dsimp only
    rw [hrate]
    rw [if_pos (by rw [habsQ]; norm_num)]
    norm_num [pathPointC9, tangentC9, camC9, addV3, smulV3, crossV3, normalizeV3,
      normV3, habsR, habsR2]
  intro hcon
  have h0 := key 0
  rw [hcon, key 1] at h0
  norm_num at h0
